import Mathlib

/-!
Verification of the incremental market-data synchronization engine
(`alpaca_spot_loader`): a shallow embedding in Lean 4 of the engine's
interval arithmetic (`date_helpers.py`), record model (`bar_record.py`,
the `Latest` checkpoint model), SQL upsert semantics (`queries/spot.py`,
`queries/spot_latest.py`) and synchronization loop (`__main__.py`),
together with theorems settling the specification's claims about them.

Modelling conventions, used throughout:
* Python `datetime` values are modelled as integer milliseconds since the
  epoch (the code itself converts datetimes to millisecond timestamps via
  `datetime_to_binance_timestamp`, which therefore becomes the identity
  in the model); `timedelta` values are modelled as integer seconds.
* Python `float` values are modelled by exact dyadic rationals
  (`Dyadic`, a mantissa and a binary exponent); `decimal.Decimal(x)`
  applied to a float is exact and is therefore the identity in the model,
  while float multiplication is modelled by `floatMul`, rounding the
  exact product to 53 significant bits, to nearest, ties to even (the
  IEEE-754 binary64 rule; overflow and subnormals are outside the range
  of the quantities the code handles and are not modelled).
* Python strings are modelled as `List Char` where the code indexes and
  slices them, and as `String` where they are opaque identifiers.
* Fallible Python code paths are modelled in `Except Err`, with one
  `Err` constructor per Python exception type that can be raised.
* The Postgres tables are modelled as lists of rows; `ON CONFLICT ... DO
  UPDATE` upserts are modelled row by row, a later row overwriting an
  earlier conflicting one (last write wins), which is the behaviour for
  the batches the engine produces (one row per key per statement).
-/

set_option maxRecDepth 16000

namespace AlpacaSpotLoader

/-- Python exception kinds raised by the modelled code paths:
`IndexError` (out-of-range indexing), `ValueError` (failed `int()`
conversion) and `KeyError` (missing dict key). -/
inductive Err where
  | indexError
  | valueError
  | keyError
  deriving DecidableEq, Repr

/-- Exact value of an IEEE-754 binary64 float: a mantissa `m` times
`2 ^ e`.  Every Python float the code manipulates is such a number. -/
structure Dyadic where
  m : Int
  e : Int
  deriving DecidableEq, Repr

/-- Exact product of two dyadic numbers (no rounding). -/
def Dyadic.exactMul (a b : Dyadic) : Dyadic := ⟨a.m * b.m, a.e + b.e⟩

/-- Rational value of a dyadic number. -/
def Dyadic.val (d : Dyadic) : ℚ := (d.m : ℚ) * (2 : ℚ) ^ d.e

/-- Fuel-driven floor of the base-2 logarithm of a natural number
(`log2fuel f n = ⌊log₂ n⌋` whenever `n ≤ 2 ^ f`, and `0` on `0`). -/
def log2fuel : Nat → Nat → Nat
  | 0, _ => 0
  | f + 1, n => if n ≤ 1 then 0 else log2fuel f (n / 2) + 1

/-- Floor of the base-2 logarithm of a natural number (`0` on `0`). -/
def nlog2 (n : Nat) : Nat := log2fuel n n

/-- Round an exact dyadic value to 53 significant bits, to nearest, ties
to even: the IEEE-754 binary64 rounding applied to the exact product of
two binary64 floats (normal range). -/
def roundFloat (d : Dyadic) : Dyadic :=
  if d.m = 0 then ⟨0, 0⟩
  else
    let s : Int := if d.m < 0 then -1 else 1
    let a : Nat := d.m.natAbs
    let L : Nat := nlog2 a
    if L ≤ 52 then d
    else
      let k := L - 52
      let q := a / 2 ^ k
      let r := a % 2 ^ k
      let half := 2 ^ (k - 1)
      let n : Nat :=
        if r < half then q
        else if half < r then q + 1
        else if q % 2 = 0 then q else q + 1
      ⟨s * n, d.e + (k : Int)⟩

/-- Python float multiplication on binary64 values: the exact product,
rounded to binary64. -/
def floatMul (a b : Dyadic) : Dyadic := roundFloat (a.exactMul b)

/-! ## date_helpers.py -/

/-- Intervals ("1h", "1d", ...) are strings the code slices and indexes;
they are modelled as lists of characters. -/
abbrev Interval := List Char

/-- The `SECONDS_PER_UNIT` dict of `date_helpers.py`: seconds per unit
character, `none` modelling a `KeyError` on any other key. -/
def SECONDS_PER_UNIT (c : Char) : Option Int :=
  if c = 'm' then some 60
  else if c = 'h' then some (60 * 60)
  else if c = 'd' then some (24 * 60 * 60)
  else if c = 'w' then some (7 * 24 * 60 * 60)
  else none

/-- Value of a nonempty digit string, accumulator style; `none` if any
character is not a digit. -/
def digitsVal (acc : Nat) : List Char → Option Nat
  | [] => some acc
  | c :: cs => if c.isDigit then digitsVal (acc * 10 + (c.toNat - 48)) cs else none

/-- Python `int(s)` on a string: an optional sign followed by at least
one digit; `none` models the `ValueError` raised otherwise.  (Python
additionally strips surrounding whitespace and allows underscores
between digits; no claim depends on those inputs and they are not
modelled.) -/
def pyInt : List Char → Option Int
  | [] => none
  | '-' :: cs => if cs.isEmpty then none else (digitsVal 0 cs).map (fun n => -(n : Int))
  | '+' :: cs => if cs.isEmpty then none else (digitsVal 0 cs).map (fun n => (n : Int))
  | cs => (digitsVal 0 cs).map (fun n => (n : Int))

/-- `parse_interval_to_timedelta` of `date_helpers.py`: `int(s[:-1])`
(raising `ValueError` on failure), then `s[-1]` (the `IndexError` branch
is unreachable because `int("")` already failed), then the
`SECONDS_PER_UNIT` lookup (raising `KeyError` on an unknown unit);
returns the timedelta as a number of seconds. -/
def parse_interval_to_timedelta (s : Interval) : Except Err Int :=
  match pyInt s.dropLast with
  | none => Except.error Err.valueError
  | some value =>
    match s.getLast? with
    | none => Except.error Err.indexError
    | some unit =>
      match SECONDS_PER_UNIT unit with
      | none => Except.error Err.keyError
      | some secs => Except.ok (value * secs)

/-- `get_next_interval` of `date_helpers.py`: the timestamp plus the
parsed interval (milliseconds in the model, so the seconds are scaled
by 1000). -/
def get_next_interval (interval : Interval) (timestamp : Int) : Except Err Int :=
  match parse_interval_to_timedelta interval with
  | Except.error e => Except.error e
  | Except.ok secs => Except.ok (timestamp + 1000 * secs)

/-- `check_active` of `date_helpers.py`: re-parses the interval the same
way (`int(interval[:-1]) * SECONDS_PER_UNIT[interval[-1]] * 1000`
evaluates the `int` call first, so an empty slice raises `ValueError`
before the `[-1]` index is reached), and reports whether the bar opening
at `d` is still inside its lag window at wall-clock time `now`. -/
def check_active (interval : Interval) (now : Int) (d : Int) : Except Err Bool :=
  let ts := d
  match pyInt interval.dropLast with
  | none => Except.error Err.valueError
  | some v =>
    match interval.getLast? with
    | none => Except.error Err.indexError
    | some u =>
      match SECONDS_PER_UNIT u with
      | none => Except.error Err.keyError
      | some spu =>
        let lag1 := v * spu * 1000
        if now - lag1 ≥ ts then Except.ok false else Except.ok true

/-! ## model/bar_record.py and the Latest checkpoint model -/

/-- A provider bar (the `alpaca.data.models.Bar` fields the loader
reads): symbol, open timestamp, OHLC prices, volume, volume-weighted
average price and trade count.  The numeric fields are Python floats,
modelled by their exact dyadic values. -/
structure Bar where
  symbol : String
  timestamp : Int
  «open» : Dyadic
  high : Dyadic
  low : Dyadic
  close : Dyadic
  volume : Dyadic
  vwap : Dyadic
  trade_count : Nat
  deriving DecidableEq, Repr

/-- One row of the `alpaca.spot_{interval}` table / the in-memory
`BarRecord` of `model/bar_record.py`. -/
structure BarRecord where
  id : Nat
  symbol : String
  open_time : Int
  open_price : Dyadic
  high_price : Dyadic
  low_price : Dyadic
  close_price : Dyadic
  volume_stock : Dyadic
  volume_dollar : Dyadic
  vwap : Dyadic
  trades : Nat
  deriving DecidableEq, Repr

/-- `BarRecord.build_record` of `model/bar_record.py`.  Each
`Decimal(bar.x)` conversion of a float is exact (identity in the
model); `Decimal(bar.volume * bar.vwap)` converts the float product,
so the stored `volume_dollar` is the rounded binary64 product
`floatMul bar.volume bar.vwap`, not the exact product. -/
def BarRecord.build_record (id : Nat) (bar : Bar) : BarRecord :=
  { id := id
    symbol := bar.symbol
    open_time := bar.timestamp
    open_price := bar.«open»
    high_price := bar.high
    low_price := bar.low
    close_price := bar.close
    volume_stock := bar.volume
    volume_dollar := floatMul bar.volume bar.vwap
    vwap := bar.vwap
    trades := bar.trade_count }

/-- Modelled from the spec: the `Latest` checkpoint model class (its
module is not in the sources; the spec's LatestCheckpoint data model and
the constructor calls in `__main__.py` fix its fields: symbol, id of
the referenced bar, that bar's open timestamp as `latest_close`, the
`active` flag and the source name).  It is also one row of the
`alpaca.spot_{interval}_latest` table. -/
structure Latest where
  symbol : String
  id : Nat
  latest_close : Int
  active : Bool
  source : String
  deriving DecidableEq, Repr

/-- Modelled from the spec: `Latest.build_record`, the checkpoint
constructor, called in `__main__.py` with the field list
`[symbol, id, open_time, active, source]`. -/
def Latest.build_record (symbol : String) (id : Nat) (latest_close : Int)
    (active : Bool) (source : String) : Latest :=
  { symbol := symbol, id := id, latest_close := latest_close
    active := active, source := source }

/-! ## Keyed tables and upsert semantics (queries/spot.py, queries/spot_latest.py) -/

/-- Upsert one row into a keyed table (`INSERT ... ON CONFLICT (key) DO
UPDATE SET all columns`): if a row with the same key exists it is fully
overwritten in place, otherwise the new row is appended. -/
def upsertBy {α κ : Type} [DecidableEq κ] (key : α → κ) (r : α) (tbl : List α) : List α :=
  if tbl.any (fun x => decide (key x = key r)) then
    tbl.map (fun x => if key x = key r then r else x)
  else tbl ++ [r]

/-- Apply a batch of upserts in order (the multi-row `VALUES` list of
one upsert statement, a later row overwriting an earlier conflicting
one). -/
def applyUpserts {α κ : Type} [DecidableEq κ] (key : α → κ) (tbl : List α)
    (rows : List α) : List α :=
  rows.foldl (fun t r => upsertBy key r t) tbl

/-- Look a key up in a keyed table (first row with that key). -/
def lookupBy {α κ : Type} [DecidableEq κ] (key : α → κ) (k : κ) (tbl : List α) : Option α :=
  tbl.find? (fun x => decide (key x = k))

/-- Conflict key of the bar table: `(symbol, open_time)`
(`queries/spot.py`). -/
def barKey (r : BarRecord) : String × Int := (r.symbol, r.open_time)

/-- Conflict key of the checkpoint table: `symbol`
(`queries/spot_latest.py`). -/
def latestKey (r : Latest) : String := r.symbol

/-- Semantics of `Queries.CORRECT_TRADING_STATUS`
(`queries/spot_latest.py`): `UPDATE ... SET active = data.active FROM
(VALUES ...) AS data WHERE latest.symbol = data.symbol` — every table
row whose symbol appears in `data` gets its `active` flag replaced; all
other columns and all other rows are untouched.  (The statement's WHERE
clause names the `spot_1h_latest` table literally, so this is its
behaviour for the 1h interval the query text is consistent with.) -/
def correct_trading_status (tbl : List Latest) (data : List (String × Bool)) : List Latest :=
  tbl.map (fun row =>
    match data.find? (fun p => p.1 == row.symbol) with
    | some p => { row with active := p.2 }
    | none => row)

/-! ## The target store (persistance/target.py is not in the sources) -/

/-- Modelled from the spec: the Checkpoint Store's durable state behind
the missing `persistance/target.py` — the bar table, the checkpoint
table and the id-allocation sequence (`allocateIds` must hand out
monotonically increasing fresh ids). -/
structure Target where
  bars : List BarRecord
  latest : List Latest
  idCtr : Nat
  deriving Repr

/-- Modelled from the spec: `get_next_ids(schema, interval, n)`
allocates `n` consecutive fresh ids from the store's sequence. -/
def Target.get_next_ids (t : Target) (n : Nat) : List Nat × Target :=
  (List.range' t.idCtr n, { t with idCtr := t.idCtr + n })

/-! ## The Loader (__main__.py) -/

/-- `Loader.latest_closed`: classify the tail of one symbol's freshly
fetched records.  With more than one record it checkpoints the
second-to-last record (`record_objs[-2]`) with the `active` variable
still holding its initial value `True`; otherwise it indexes
`record_objs[0]` (an `IndexError` on an empty list) and checkpoints it
with `active = False` exactly when `check_active` says the bar is no
longer inside its lag window; a still-open single bar yields no
checkpoint. -/
def latest_closed (interval : Interval) (now : Int) (source_name : String)
    (symbol : String) (record_objs : List BarRecord) : Except Err (Option Latest) :=
  if record_objs.length > 1 then
    match record_objs.get? (record_objs.length - 2) with
    | none => throw Err.indexError
    | some last_closed_bar =>
        pure (some (Latest.build_record symbol last_closed_bar.id
          last_closed_bar.open_time true source_name))
  else
    match record_objs.get? 0 with
    | none => throw Err.indexError
    | some r0 =>
        match check_active interval now r0.open_time with
        | Except.error e => Except.error e
        | Except.ok active =>
          if !active then
            pure (some (Latest.build_record symbol r0.id r0.open_time active source_name))
          else
            pure none

/-- `Loader.persist_records`: execute the bar upsert and the checkpoint
upsert and commit them as one transaction. -/
def persist_records (t : Target) (records : List BarRecord)
    (latest_records : List Latest) : Target :=
  { t with
    bars := applyUpserts barKey t.bars records
    latest := applyUpserts latestKey t.latest latest_records }

/-- The sentinel start timestamp for symbols with no checkpoint:
`datetime.min + timedelta(days=1)` (the provider clamps it to its
earliest available bar).  `datetime.min` is year 1; its exact
millisecond value is irrelevant to every claim. -/
def DATETIME_MIN_PLUS_DAY : Int := -62135596800000 + 86400000

/-- The body of the checkpoint loop inside `Loader.get_keys`: an active
checkpoint row becomes the fetch key `(symbol, next interval boundary
after latest_close)`. -/
def key_of_row (interval : Interval) (row : Latest) : Except Err (String × Int) :=
  match get_next_interval interval row.latest_close with
  | Except.error e => Except.error e
  | Except.ok nxt => Except.ok (row.symbol, nxt)

/-- `Loader.get_keys`: read all checkpoints; every `active` checkpoint
contributes a fetch key at the next interval boundary after its
`latest_close`; symbols of the requested universe with no checkpoint
row are fetched from the sentinel start.  (`list(set(..) - set(..))` is
modelled as a deduplicated filtered list; only membership matters to
the claims.) -/
def get_keys (interval : Interval) (store : List Latest) (symbol_lst : List String) :
    Except Err (List (String × Int)) :=
  match (store.filter (fun r => r.active)).mapM (key_of_row interval) with
  | Except.error e => Except.error e
  | Except.ok activeKeys =>
    let new_symbols :=
      if store.isEmpty then symbol_lst
      else (symbol_lst.dedup).filter (fun s => !(store.any (fun r => r.symbol == s)))
    Except.ok (activeKeys ++ new_symbols.map (fun s => (s, DATETIME_MIN_PLUS_DAY)))

/-- One recorded flush of the pending batch inside a cycle: how many
symbols had been processed when it fired and how many bar records it
wrote. -/
structure FlushEvent where
  processed : Nat
  nRecords : Nat
  deriving DecidableEq, Repr

/-- The loop state of `Loader.load_from_keys`: the target connection,
the pending record batch, the pending checkpoint batch (entries may be
`None`), the processed-symbol counter, the persisted-record counter and
the trace of flushes performed so far. -/
structure LoadState where
  target : Target
  record_objs : List BarRecord
  new_latest : List (Option Latest)
  processed : Nat
  persisted : Nat
  trace : List FlushEvent
  deriving Repr

/-- The `BATCH_SIZE` constant of `Loader.load_from_keys`. -/
def BATCH_SIZE : Nat := 1000

/-- The batch-persistence step at the end of each `load_from_keys`
iteration: flush the pending batches when they are nonempty and the
processed-symbol counter is a multiple of `BATCH_SIZE` or every key has
been processed (`nKeys` is `self._n_active_symbols`, the number of keys
of this cycle). -/
def flush_if_due (nKeys : Nat) (processed : Nat) (st1 : LoadState) : LoadState :=
  if st1.record_objs ≠ [] ∧ (processed % BATCH_SIZE = 0 ∨ processed = nKeys) then
    { st1 with
      target := persist_records st1.target st1.record_objs (st1.new_latest.filterMap id)
      persisted := st1.persisted + st1.record_objs.length
      trace := st1.trace ++ [⟨processed, st1.record_objs.length⟩]
      record_objs := []
      new_latest := [] }
  else
    st1

/-- One iteration of the `for symbol, start_time in keys` loop of
`Loader.load_from_keys`: fetch the bars for the key; if any, allocate
ids, build the records, classify the tail and append records and
classification to the pending batches; then run the batch-persistence
step. -/
def load_step (interval : Interval) (now : Int) (source_name : String)
    (fetch : String → Int → List Bar) (nKeys : Nat)
    (st : LoadState) (key : String × Int) : Except Err LoadState :=
  let symbol := key.1
  let start_time := key.2
  let processed := st.processed + 1
  let bars := fetch symbol start_time
  if bars.isEmpty then
    Except.ok (flush_if_due nKeys processed { st with processed := processed })
  else
    let allocated := st.target.get_next_ids bars.length
    let record_ids := allocated.1
    let symbol_record_objs :=
      (bars.zip record_ids).map (fun p => BarRecord.build_record p.2 p.1)
    match latest_closed interval now source_name symbol symbol_record_objs with
    | Except.error e => Except.error e
    | Except.ok nl =>
        Except.ok (flush_if_due nKeys processed { st with
          target := allocated.2
          processed := processed
          new_latest := st.new_latest ++ [nl]
          record_objs := st.record_objs ++ symbol_record_objs })

/-- The `for symbol, start_time in keys` loop of `Loader.load_from_keys`
(an exception raised by an iteration propagates). -/
def load_loop (interval : Interval) (now : Int) (source_name : String)
    (fetch : String → Int → List Bar) (nKeys : Nat) :
    LoadState → List (String × Int) → Except Err LoadState
  | st, [] => Except.ok st
  | st, key :: rest =>
    match load_step interval now source_name fetch nKeys st key with
    | Except.error e => Except.error e
    | Except.ok st1 => load_loop interval now source_name fetch nKeys st1 rest

/-- `Loader.load_from_keys`: run the loop over the cycle's fetch keys,
starting from empty pending batches and zeroed counters. -/
def load_from_keys (interval : Interval) (now : Int) (source_name : String)
    (fetch : String → Int → List Bar) (t : Target) (keys : List (String × Int)) :
    Except Err LoadState :=
  load_loop interval now source_name fetch keys.length
    { target := t, record_objs := [], new_latest := [], processed := 0
      persisted := 0, trace := [] } keys

/-- `Loader.check_trading_status`: ask the store for the symbols
checkpointed inactive, ask the source for their tradability
(`get_trading_status` returns `none` on a provider error), and flip the
`active` flag of every symbol reported tradable via the
`CORRECT_TRADING_STATUS` update, committed immediately; an error reply,
an empty reply or no tradable symbol leaves the store untouched. -/
def check_trading_status (get_trading_status : List String → Option (List (String × Bool)))
    (t : Target) : Target :=
  let inactive_symbols := (t.latest.filter (fun r => !r.active)).map (fun r => r.symbol)
  match get_trading_status inactive_symbols with
  | none => t
  | some trading_status =>
      let active_symbols := trading_status.filter (fun p => p.2)
      if active_symbols.isEmpty then t
      else { t with latest := correct_trading_status t.latest active_symbols }

/-- The result of one `Loader.run_once` cycle: the pacing mode chosen at
the end of the cycle, the updated store, the persisted-record count,
the cycle's active-symbol count (`len(keys)`) and the flush trace. -/
structure RunResult where
  mode : String
  target : Target
  persisted : Nat
  nActive : Nat
  trace : List FlushEvent
  deriving Repr

/-- `Loader.run_once`: set the mode to `"SLOW"`, reconcile trading
status, compute the fetch keys, load from them, and switch the mode to
`"FAST"` exactly when more records were persisted than there were
active symbols. -/
def run_once (interval : Interval) (now : Int) (source_name : String)
    (get_trading_status : List String → Option (List (String × Bool)))
    (fetch : String → Int → List Bar)
    (t : Target) (symbol_lst : List String) : Except Err RunResult :=
  let t1 := check_trading_status get_trading_status t
  match get_keys interval t1.latest symbol_lst with
  | Except.error e => Except.error e
  | Except.ok keys =>
    match load_from_keys interval now source_name fetch t1 keys with
    | Except.error e => Except.error e
    | Except.ok res =>
      let mode := if res.persisted > keys.length then "FAST" else "SLOW"
      Except.ok { mode := mode, target := res.target, persisted := res.persisted
                  nActive := keys.length, trace := res.trace }

/-- The per-cycle environment of the service loop: the wall clock, the
provider's trading-status replies and the provider's bar fetches for
that cycle. -/
structure CycleEnv where
  now : Int
  trading : List String → Option (List (String × Bool))
  fetch : String → Int → List Bar

/-- `Loader.run_as_service`'s cycle loop, restricted to the store it
threads through successive `run_once` calls (the symbol universe is
fetched once, before the loop, and reused). -/
def run_cycles (interval : Interval) (source_name : String)
    (symbol_lst : List String) : Target → List CycleEnv → Except Err Target
  | t, [] => Except.ok t
  | t, e :: es =>
      match run_once interval e.now source_name e.trading e.fetch t symbol_lst with
      | Except.error err => Except.error err
      | Except.ok r => run_cycles interval source_name symbol_lst r.target es

/-- The candidate sleep durations of the `"FAST"` branch of
`Loader.run_as_service`: `secrets.choice([1, 5] + [i for i in
range(1, 5)])` picks uniformly from this list (seconds). -/
def fast_sleep_choices : List Nat := [1, 5] ++ List.range' 1 4

/-! ## Helper lemmas: Except inversion and mapM -/

theorem except_bind_ok {α β : Type} {e : Except Err α} {f : α → Except Err β} {b : β}
    (h : e >>= f = Except.ok b) : ∃ a, e = Except.ok a ∧ f a = Except.ok b := by
  cases e with
  | error err => simp [Bind.bind, Except.bind] at h
  | ok a => exact ⟨a, rfl, by simpa [Bind.bind, Except.bind] using h⟩

theorem mapM_ok_mem {α β : Type} {f : α → Except Err β} :
    ∀ {l : List α} {K : List β}, l.mapM f = Except.ok K →
      ∀ y ∈ K, ∃ x ∈ l, f x = Except.ok y := by
  intro l
  induction l with
  | nil =>
      intro K h y hy
      simp only [List.mapM_nil] at h
      cases h
      simp at hy
  | cons a l ih =>
      intro K h y hy
      rw [List.mapM_cons] at h
      obtain ⟨b, hb, h2⟩ := except_bind_ok h
      obtain ⟨bs, hbs, h3⟩ := except_bind_ok h2
      cases h3
      rcases List.mem_cons.mp hy with h | h
      · exact ⟨a, List.mem_cons_self a l, by rw [hb, h]⟩
      · obtain ⟨x, hx, hfx⟩ := ih hbs y h
        exact ⟨x, List.mem_cons_of_mem a hx, hfx⟩

theorem mapM_ok_of_mem {α β : Type} {f : α → Except Err β} :
    ∀ {l : List α} {K : List β}, l.mapM f = Except.ok K →
      ∀ x ∈ l, ∀ y, f x = Except.ok y → y ∈ K := by
  intro l
  induction l with
  | nil =>
      intro K h x hx
      simp at hx
  | cons a l ih =>
      intro K h x hx y hy
      rw [List.mapM_cons] at h
      obtain ⟨b, hb, h2⟩ := except_bind_ok h
      obtain ⟨bs, hbs, h3⟩ := except_bind_ok h2
      cases h3
      rcases List.mem_cons.mp hx with h | h
      · subst h
        rw [hb] at hy
        cases hy
        exact List.mem_cons_self _ _
      · exact List.mem_cons_of_mem _ (ih hbs x h y hy)

theorem mapM_ok_total {α β : Type} {f : α → Except Err β} :
    ∀ {l : List α}, (∀ x ∈ l, ∃ y, f x = Except.ok y) →
      ∃ K, l.mapM f = Except.ok K := by
  intro l
  induction l with
  | nil => exact fun _ => ⟨[], rfl⟩
  | cons a l ih =>
      intro h
      obtain ⟨b, hb⟩ := h a (List.mem_cons_self a l)
      obtain ⟨K, hK⟩ := ih (fun x hx => h x (List.mem_cons_of_mem a hx))
      exact ⟨b :: K, by rw [List.mapM_cons, hb, hK]; rfl⟩

/-! ## Helper lemmas: keyed tables -/

theorem find_map_upsert_ne {α κ : Type} [DecidableEq κ] (key : α → κ) (r : α) (k : κ)
    (hne : key r ≠ k) :
    ∀ tbl : List α,
      (tbl.map (fun x => if key x = key r then r else x)).find? (fun x => decide (key x = k)) =
        tbl.find? (fun x => decide (key x = k)) := by
  intro tbl
  induction tbl with
  | nil => rfl
  | cons x tbl ih =>
      by_cases hx : key x = key r
      · have hxk : decide (key x = k) = false := by
          simp [hx, hne]
        simp only [List.map_cons, if_pos hx, List.find?_cons]
        rw [hxk]
        have hrk : decide (key r = k) = false := by simp [hne]
        rw [hrk]
        exact ih
      · simp only [List.map_cons, if_neg hx, List.find?_cons]
        cases h : decide (key x = k)
        · exact ih
        · rfl

theorem find_map_upsert_eq {α κ : Type} [DecidableEq κ] (key : α → κ) (r : α) :
    ∀ tbl : List α, tbl.any (fun x => decide (key x = key r)) = true →
      (tbl.map (fun x => if key x = key r then r else x)).find?
          (fun x => decide (key x = key r)) = some r := by
  intro tbl
  induction tbl with
  | nil => intro h; simp at h
  | cons x tbl ih =>
      intro h
      by_cases hx : key x = key r
      · simp only [List.map_cons, if_pos hx, List.find?_cons]
        simp
      · simp only [List.any_cons, Bool.or_eq_true, decide_eq_true_eq] at h
        rcases h with h | h
        · exact absurd h hx
        · simp only [List.map_cons, if_neg hx, List.find?_cons]
          have : decide (key x = key r) = false := by simp [hx]
          rw [this]
          exact ih h

theorem lookup_upsert {α κ : Type} [DecidableEq κ] (key : α → κ) (r : α) (tbl : List α)
    (k : κ) :
    lookupBy key k (upsertBy key r tbl) =
      if key r = k then some r else lookupBy key k tbl := by
  unfold upsertBy lookupBy
  by_cases hany : tbl.any (fun x => decide (key x = key r)) = true
  · rw [if_pos hany]
    by_cases hk : key r = k
    · subst hk
      rw [if_pos rfl]
      exact find_map_upsert_eq key r tbl hany
    · rw [if_neg hk]
      exact find_map_upsert_ne key r k hk tbl
  · rw [if_neg hany]
    rw [List.find?_append]
    by_cases hk : key r = k
    · subst hk
      have hnone : tbl.find? (fun x => decide (key x = key r)) = none := by
        rw [List.find?_eq_none]
        intro x hx
        simp only [decide_eq_true_eq]
        intro hxr
        exact hany (List.any_eq_true.mpr ⟨x, hx, by simp [hxr]⟩)
      rw [hnone]
      simp
    · rw [if_neg hk]
      have : ([r].find? (fun x => decide (key x = k))) = none := by
        simp [List.find?, hk]
      rw [this]
      simp

theorem lookup_applyUpserts {α κ : Type} [DecidableEq κ] (key : α → κ) (k : κ) :
    ∀ (rows : List α) (tbl : List α),
      lookupBy key k (applyUpserts key tbl rows) =
        ((rows.reverse.find? (fun r => decide (key r = k))).or (lookupBy key k tbl)) := by
  intro rows
  induction rows with
  | nil => intro tbl; simp [applyUpserts]
  | cons r rows ih =>
      intro tbl
      have step : applyUpserts key tbl (r :: rows) = applyUpserts key (upsertBy key r tbl) rows := rfl
      rw [step, ih, lookup_upsert]
      rw [List.reverse_cons, List.find?_append]
      cases hfind : rows.reverse.find? (fun r => decide (key r = k)) with
      | some v => rfl
      | none =>
          simp only [Option.none_or]
          by_cases hk : key r = k
          · simp [hk]
          · have : decide (key r = k) = false := by simp [hk]
            simp [List.find?, this, hk]

theorem lookup_applyUpserts_idem {α κ : Type} [DecidableEq κ] (key : α → κ) (k : κ)
    (rows tbl : List α) :
    lookupBy key k (applyUpserts key (applyUpserts key tbl rows) rows) =
      lookupBy key k (applyUpserts key tbl rows) := by
  rw [lookup_applyUpserts, lookup_applyUpserts]
  cases hfind : rows.reverse.find? (fun r => decide (key r = k)) <;> rfl

theorem map_key_upsert {α κ : Type} [DecidableEq κ] (key : α → κ) (r : α) (tbl : List α) :
    (upsertBy key r tbl).map key = tbl.map key ∨
      (upsertBy key r tbl).map key = tbl.map key ++ [key r] := by
  unfold upsertBy
  by_cases hany : tbl.any (fun x => decide (key x = key r)) = true
  · left
    rw [if_pos hany]
    rw [List.map_map]
    apply List.map_congr_left
    intro x _
    by_cases hx : key x = key r
    · simp [Function.comp, hx]
    · simp [Function.comp, hx]
  · right
    rw [if_neg hany]
    simp

theorem nodup_upsert {α κ : Type} [DecidableEq κ] (key : α → κ) (r : α) (tbl : List α)
    (h : (tbl.map key).Nodup) : ((upsertBy key r tbl).map key).Nodup := by
  rcases map_key_upsert key r tbl with heq | heq
  · rw [heq]; exact h
  · rw [heq]
    unfold upsertBy at heq
    by_cases hany : tbl.any (fun x => decide (key x = key r)) = true
    · rw [if_pos hany] at heq
      exfalso
      have := congrArg List.length heq
      simp at this
    · have hnot : key r ∉ tbl.map key := by
        intro hmem
        obtain ⟨x, hx, hkx⟩ := List.mem_map.mp hmem
        exact hany (List.any_eq_true.mpr ⟨x, hx, by simp [hkx]⟩)
      simpa using List.Nodup.append h (List.nodup_singleton _) (by simpa using hnot)

theorem nodup_applyUpserts {α κ : Type} [DecidableEq κ] (key : α → κ) :
    ∀ (rows tbl : List α), (tbl.map key).Nodup → ((applyUpserts key tbl rows).map key).Nodup := by
  intro rows
  induction rows with
  | nil => intro tbl h; exact h
  | cons r rows ih =>
      intro tbl h
      exact ih (upsertBy key r tbl) (nodup_upsert key r tbl h)

theorem lookup_of_mem_nodup {α κ : Type} [DecidableEq κ] (key : α → κ) :
    ∀ (tbl : List α) (r : α), (tbl.map key).Nodup → r ∈ tbl →
      lookupBy key (key r) tbl = some r := by
  intro tbl
  induction tbl with
  | nil => intro r _ hmem; simp at hmem
  | cons x tbl ih =>
      intro r hnodup hmem
      rcases List.mem_cons.mp hmem with h | h
      · subst h
        simp [lookupBy, List.find?]
      · by_cases hx : key x = key r
        · exfalso
          rw [List.map_cons, List.nodup_cons] at hnodup
          exact hnodup.1 (hx ▸ List.mem_map_of_mem key h)
        · have : decide (key x = key r) = false := by simp [hx]
          simp only [lookupBy, List.find?, this]
          exact ih r (by rw [List.map_cons, List.nodup_cons] at hnodup; exact hnodup.2) h

theorem lookup_map_keyfix {α κ : Type} [DecidableEq κ] (key : α → κ) (f : α → α)
    (hf : ∀ x, key (f x) = key x) (k : κ) :
    ∀ tbl : List α, lookupBy key k (tbl.map f) = (lookupBy key k tbl).map f := by
  intro tbl
  induction tbl with
  | nil => rfl
  | cons x tbl ih =>
      simp only [List.map_cons, lookupBy, List.find?, hf]
      cases h : decide (key x = k)
      · exact ih
      · rfl

theorem lookup_find_symbol {α κ : Type} [DecidableEq κ] (key : α → κ) (k : κ)
    (tbl : List α) (r : α) (h : lookupBy key k tbl = some r) : key r = k ∧ r ∈ tbl := by
  have h1 := List.find?_some h
  have h2 := List.mem_of_find?_eq_some h
  simp only [decide_eq_true_eq] at h1
  exact ⟨h1, h2⟩

/-! ## Sample data used by concrete counterexamples and witnesses -/

/-- A zero dyadic, for bar fields whose value is irrelevant to a claim. -/
def dy0 : Dyadic := ⟨0, 0⟩

/-- A bar record with the given id and open time (all prices zero). -/
def sampleRec (i : Nat) (ts : Int) : BarRecord :=
  ⟨i, "A", ts, dy0, dy0, dy0, dy0, dy0, dy0, dy0, 0⟩

/-- A provider bar with the given symbol and timestamp (all prices zero). -/
def sampleBar (s : String) (ts : Int) : Bar := ⟨s, ts, dy0, dy0, dy0, dy0, dy0, dy0, 0⟩

/-! ## C4 -/

/-- C4: flushing the same batch of BarRecords and LatestCheckpoints
twice leaves the storage state identical to flushing it once — for
every bar-table key `(symbol, open_time)` and every checkpoint-table key
`symbol`, the row stored after `persist_records` runs twice on the same
batch equals the row stored after it runs once. -/
theorem C4_flush_idempotent (t : Target) (records : List BarRecord)
    (latest_records : List Latest) :
    (∀ k : String × Int,
      lookupBy barKey k
          (persist_records (persist_records t records latest_records) records latest_records).bars =
        lookupBy barKey k (persist_records t records latest_records).bars) ∧
    (∀ s : String,
      lookupBy latestKey s
          (persist_records (persist_records t records latest_records) records latest_records).latest =
        lookupBy latestKey s (persist_records t records latest_records).latest) := by
  constructor
  · intro k
    simp only [persist_records]
    exact lookup_applyUpserts_idem barKey k records t.bars
  · intro s
    simp only [persist_records]
    exact lookup_applyUpserts_idem latestKey s latest_records t.latest

/-! ## C9 -/

/-- C9 counterexample: the claim says the conversion fails whenever the
numeric part is not a *positive* integer, but `int("-5")` succeeds in
Python, so `parse_interval_to_timedelta "-5h"` returns a negative
timedelta (-18000 seconds) instead of failing. -/
theorem C9_cx_negative_value_accepted :
    parse_interval_to_timedelta ['-', '5', 'h'] = Except.ok (-18000) := rfl

/-- C9 (amended): `parse_interval_to_timedelta` returns `n * k` seconds
whenever `int()` accepts the sliced numeric part with value `n` (any
signed integer, not only positive ones) and the final character is a
unit with `k` seconds; it raises `ValueError` when the numeric part is
not an integer literal and `KeyError` when the unit character is
unknown. -/
theorem C9_parse_interval_characterisation (s : Interval) :
    (∀ (n : Int) (u : Char) (k : Int),
        pyInt s.dropLast = some n → s.getLast? = some u → SECONDS_PER_UNIT u = some k →
          parse_interval_to_timedelta s = Except.ok (n * k)) ∧
    (pyInt s.dropLast = none →
        parse_interval_to_timedelta s = Except.error Err.valueError) ∧
    (∀ (n : Int) (u : Char),
        pyInt s.dropLast = some n → s.getLast? = some u → SECONDS_PER_UNIT u = none →
          parse_interval_to_timedelta s = Except.error Err.keyError) := by
  refine ⟨?_, ?_, ?_⟩
  · intro n u k h1 h2 h3
    simp only [parse_interval_to_timedelta, h1, h2, h3]
  · intro h1
    simp only [parse_interval_to_timedelta, h1]
  · intro n u h1 h2 h3
    simp only [parse_interval_to_timedelta, h1, h2, h3]

/-- C9 witness: the characterisation applied to the valid specifier
"1h" yields 3600 seconds. -/
theorem C9_witness :
    pyInt (['1', 'h'] : Interval).dropLast = some 1 ∧
    parse_interval_to_timedelta ['1', 'h'] = Except.ok (1 * 3600) :=
  ⟨rfl, (C9_parse_interval_characterisation ['1', 'h']).1 1 'h' 3600 rfl rfl rfl⟩

/-! ## C1 -/

/-- C1 counterexample: with two records, `latest_closed` checkpoints the
second-to-last record with `active := true` (the `active` local variable
still holds its initial value `True` in that branch), not
`active = false` as the claim states. -/
theorem C1_cx_active_is_true :
    latest_closed ['1', 'h'] 0 "ALPACA" "A" [sampleRec 1 100, sampleRec 2 200] =
      Except.ok (some ⟨"A", 1, 100, true, "ALPACA"⟩) := rfl

/-- C1 (amended): for two or more records, `latest_closed` returns a
checkpoint referencing the second-to-last record (its id and open
timestamp) with the `active` flag equal to `true`. -/
theorem C1_two_records_checkpoint (interval : Interval) (now : Int) (src sym : String)
    (objs : List BarRecord) (r : BarRecord)
    (hlen : 1 < objs.length) (hr : objs.get? (objs.length - 2) = some r) :
    latest_closed interval now src sym objs =
      Except.ok (some (Latest.build_record sym r.id r.open_time true src)) := by
  simp only [latest_closed, gt_iff_lt, hlen, if_true]
  rw [hr]
  rfl

/-- C1 witness: the amended theorem applied to a concrete two-record
list. -/
theorem C1_witness :
    (1 < ([sampleRec 3 100, sampleRec 4 200] : List BarRecord).length) ∧
    latest_closed ['2', 'm'] 5 "S" "B" [sampleRec 3 100, sampleRec 4 200] =
      Except.ok (some (Latest.build_record "B" 3 100 true "S")) :=
  ⟨by decide, C1_two_records_checkpoint ['2', 'm'] 5 "S" "B"
    [sampleRec 3 100, sampleRec 4 200] (sampleRec 3 100) (by decide) rfl⟩

/-! ## C7 -/

/-- C7: with exactly one fetched record, `latest_closed` returns a
checkpoint with `active = false` precisely when `check_active` reports
the record's open timestamp as no longer active; when the bar is still
open it returns no checkpoint at all. -/
theorem C7_single_record (interval : Interval) (now : Int) (src sym : String)
    (r : BarRecord) (b : Bool)
    (hb : check_active interval now r.open_time = Except.ok b) :
    latest_closed interval now src sym [r] =
      Except.ok (if b then none
        else some (Latest.build_record sym r.id r.open_time false src)) := by
  simp only [latest_closed, List.length_singleton, gt_iff_lt]
  rw [if_neg (by omega)]
  simp only [List.get?]
  rw [hb]
  cases b <;> rfl

/-- C7 witness: a single already-closed bar (opened at 0, one-hour
interval, wall clock at two hours) yields an `active = false`
checkpoint. -/
theorem C7_witness :
    check_active ['1', 'h'] 7200000 (sampleRec 9 0).open_time = Except.ok false ∧
    latest_closed ['1', 'h'] 7200000 "ALPACA" "A" [sampleRec 9 0] =
      Except.ok (if false then none
        else some (Latest.build_record "A" 9 0 false "ALPACA")) :=
  ⟨rfl, C7_single_record ['1', 'h'] 7200000 "ALPACA" "A" (sampleRec 9 0) false rfl⟩

/-! ## C8 -/

/-- C8 counterexample: `latest_closed` applied directly to an empty
record list is not total — evaluating `record_objs[0]` raises
`IndexError` instead of returning no checkpoint. -/
theorem C8_cx_empty_list_raises :
    latest_closed ['1', 'h'] 0 "ALPACA" "A" [] = Except.error Err.indexError := rfl

theorem load_loop_all_empty (interval : Interval) (now : Int) (src : String)
    (fetch : String → Int → List Bar) (n : Nat) :
    ∀ (rest : List (String × Int)) (st : LoadState),
      (∀ k ∈ rest, fetch k.1 k.2 = []) → st.record_objs = [] →
      load_loop interval now src fetch n st rest =
        Except.ok { st with processed := st.processed + rest.length } := by
  intro rest
  induction rest with
  | nil =>
      intro st _ _
      simp [load_loop]
  | cons k rest ih =>
      intro st hf hro
      have hk : fetch k.1 k.2 = [] := hf k (List.mem_cons_self _ _)
      have hstep : load_step interval now src fetch n st k =
          Except.ok { st with processed := st.processed + 1 } := by
        simp only [load_step, hk, List.isEmpty_nil, if_true]
        have : flush_if_due n (st.processed + 1) { st with processed := st.processed + 1 } =
            { st with processed := st.processed + 1 } := by
          simp only [flush_if_due, hro]
          rw [if_neg (by simp [hro])]
        rw [this]
      simp only [load_loop, hstep]
      rw [ih { st with processed := st.processed + 1 }
        (fun x hx => hf x (List.mem_cons_of_mem _ hx)) hro]
      have harith : st.processed + 1 + rest.length = st.processed + (rest.length + 1) := by omega
      simp only [List.length_cons]
      rw [show ({ st with processed := st.processed + 1 } : LoadState).processed + rest.length
            = st.processed + (rest.length + 1) from harith]

/-- C8 (amended): in the engine's cycle, zero fetched records for a
symbol emit no checkpoint because `load_from_keys` classifies only
nonempty fetches — when every fetch of the cycle is empty the run
completes without error, writes nothing, allocates nothing and produces
no checkpoint batch; `latest_closed` itself, however, is not total on
the empty list (see the counterexample). -/
theorem C8_empty_fetches_no_checkpoint (interval : Interval) (now : Int) (src : String)
    (fetch : String → Int → List Bar) (t : Target) (keys : List (String × Int))
    (hf : ∀ k ∈ keys, fetch k.1 k.2 = []) :
    load_from_keys interval now src fetch t keys =
      Except.ok { target := t, record_objs := [], new_latest := []
                  processed := keys.length, persisted := 0, trace := [] } := by
  have h := load_loop_all_empty interval now src fetch keys.length keys
    { target := t, record_objs := [], new_latest := [], processed := 0
      persisted := 0, trace := [] } hf rfl
  simpa [load_from_keys] using h

/-- C8 witness: a one-key cycle whose fetch returns no bars finishes
cleanly with an untouched store and no checkpoint. -/
theorem C8_witness :
    load_from_keys ['1', 'h'] 0 "ALPACA" (fun _ _ => []) ⟨[], [], 3⟩ [("A", 5)] =
      Except.ok { target := ⟨[], [], 3⟩, record_objs := [], new_latest := []
                  processed := 1, persisted := 0, trace := [] } :=
  C8_empty_fetches_no_checkpoint ['1', 'h'] 0 "ALPACA" (fun _ _ => []) ⟨[], [], 3⟩
    [("A", 5)] (fun _ _ => rfl)

/-! ## C6 -/

theorem Dyadic.val_exactMul (a b : Dyadic) : (a.exactMul b).val = a.val * b.val := by
  simp only [Dyadic.val, Dyadic.exactMul]
  push_cast
  rw [zpow_add₀ (by norm_num : (2 : ℚ) ≠ 0)]
  ring

theorem roundFloat_val_small (d : Dyadic) (h : nlog2 d.m.natAbs ≤ 52) :
    (roundFloat d).val = d.val := by
  by_cases hm : d.m = 0
  · simp [roundFloat, hm, Dyadic.val]
  · simp [roundFloat, hm, h]

/-- The concrete provider bar of the C6 counterexample: volume `3.0`
and vwap `0.1` (the binary64 value of the literal `0.1`, namely
`3602879701896397 * 2 ^ (-55)`). -/
def barC6 : Bar :=
  ⟨"A", 0, dy0, dy0, dy0, dy0, ⟨3, 0⟩, ⟨3602879701896397, -55⟩, 7⟩

/-- C6 counterexample: for the bar with volume `3.0` and vwap `0.1`,
the stored `volume_dollar` is `Decimal(3.0 * 0.1)` — the float product,
rounded to binary64 — which differs from the exact product of the
stored `volume_stock` and `vwap` decimals (`3.0 * 0.1` rounds up to
`5404319552844596 * 2 ^ (-54)`, while the exact product is
`10808639105689191 * 2 ^ (-55)`): floating-point arithmetic is involved
and the product is not exact. -/
theorem C6_cx_volume_dollar_not_exact_product :
    ((BarRecord.build_record 1 barC6).volume_dollar).val ≠
      ((BarRecord.build_record 1 barC6).volume_stock).val *
        ((BarRecord.build_record 1 barC6).vwap).val := by
  have h1 : (BarRecord.build_record 1 barC6).volume_dollar = ⟨5404319552844596, -54⟩ := by
    decide
  have h2 : (BarRecord.build_record 1 barC6).volume_stock = ⟨3, 0⟩ := rfl
  have h3 : (BarRecord.build_record 1 barC6).vwap = ⟨3602879701896397, -55⟩ := rfl
  rw [h1, h2, h3]
  simp only [Dyadic.val]
  norm_num

/-- C6 (amended): `build_record` stores every price and volume as the
exact decimal value of the provider's binary64 field, but
`volume_dollar` is the decimal conversion of the *binary64* product
`volume * vwap`; it equals the exact product `volume_stock × vwap`
whenever that product fits in 53 significant bits, and can differ from
it otherwise (see the counterexample). -/
theorem C6_build_record_fields (idv : Nat) (bar : Bar) :
    (BarRecord.build_record idv bar).open_price = bar.«open» ∧
    (BarRecord.build_record idv bar).high_price = bar.high ∧
    (BarRecord.build_record idv bar).low_price = bar.low ∧
    (BarRecord.build_record idv bar).close_price = bar.close ∧
    (BarRecord.build_record idv bar).volume_stock = bar.volume ∧
    (BarRecord.build_record idv bar).vwap = bar.vwap ∧
    (BarRecord.build_record idv bar).volume_dollar = floatMul bar.volume bar.vwap ∧
    (nlog2 (bar.volume.m * bar.vwap.m).natAbs ≤ 52 →
      ((BarRecord.build_record idv bar).volume_dollar).val = bar.volume.val * bar.vwap.val) := by
  refine ⟨rfl, rfl, rfl, rfl, rfl, rfl, rfl, ?_⟩
  intro h
  show (floatMul bar.volume bar.vwap).val = _
  rw [floatMul, roundFloat_val_small _ h]
  exact Dyadic.val_exactMul _ _

/-- C6 witness: for volume `3.0` and vwap `5.0` the product fits in 53
bits, so `volume_dollar` is exactly `15.0`. -/
theorem C6_witness :
    nlog2 ((3 : Int) * 5).natAbs ≤ 52 ∧
    ((BarRecord.build_record 2 ⟨"B", 0, dy0, dy0, dy0, dy0, ⟨3, 0⟩, ⟨5, 0⟩, 1⟩).volume_dollar).val =
      (⟨3, 0⟩ : Dyadic).val * (⟨5, 0⟩ : Dyadic).val :=
  ⟨by decide,
   (C6_build_record_fields 2 ⟨"B", 0, dy0, dy0, dy0, dy0, ⟨3, 0⟩, ⟨5, 0⟩, 1⟩).2.2.2.2.2.2.2
     (by decide)⟩

/-! ## C3 -/

theorem load_step_spec (interval : Interval) (now : Int) (src : String)
    (fetch : String → Int → List Bar) (n : Nat) (st : LoadState) (key : String × Int)
    (st1 : LoadState) (h : load_step interval now src fetch n st key = Except.ok st1) :
    ∃ pending : LoadState,
      st1 = flush_if_due n (st.processed + 1) pending ∧
      pending.processed = st.processed + 1 ∧
      pending.trace = st.trace ∧
      pending.persisted = st.persisted := by
  simp only [load_step] at h
  split at h
  · cases h
    exact ⟨_, rfl, rfl, rfl, rfl⟩
  · split at h
    · cases h
    · cases h
      exact ⟨_, rfl, rfl, rfl, rfl⟩

theorem load_loop_flush_shape (interval : Interval) (now : Int) (src : String)
    (fetch : String → Int → List Bar) (n : Nat) :
    ∀ (rest : List (String × Int)) (st st' : LoadState),
      load_loop interval now src fetch n st rest = Except.ok st' →
      st.processed + rest.length = n →
      (∀ ev ∈ st.trace, 0 < ev.nRecords ∧ (ev.processed % BATCH_SIZE = 0 ∨ ev.processed = n)) →
      (st.record_objs = [] ∨ st.processed ≠ n) →
      (∀ ev ∈ st'.trace, 0 < ev.nRecords ∧ (ev.processed % BATCH_SIZE = 0 ∨ ev.processed = n)) ∧
      st'.record_objs = [] := by
  intro rest
  induction rest with
  | nil =>
      intro st st' h hlen htr hro
      simp only [load_loop] at h
      cases h
      refine ⟨htr, ?_⟩
      rcases hro with h | h
      · exact h
      · simp only [List.length_nil, Nat.add_zero] at hlen
        exact absurd hlen h
  | cons k rest ih =>
      intro st st' h hlen htr hro
      simp only [load_loop] at h
      cases hstep : load_step interval now src fetch n st k with
      | error e => rw [hstep] at h; cases h
      | ok st1 =>
          rw [hstep] at h
          obtain ⟨p, hp4, hp1, hp2, hp3⟩ :=
            load_step_spec interval now src fetch n st k st1 hstep
          by_cases hc : p.record_objs ≠ [] ∧
              ((st.processed + 1) % BATCH_SIZE = 0 ∨ st.processed + 1 = n)
          · have hst1 : st1.processed = st.processed + 1 ∧ st1.record_objs = [] ∧
                st1.trace = st.trace ++ [⟨st.processed + 1, p.record_objs.length⟩] := by
              rw [hp4]
              simp [flush_if_due, hc, hp1, hp2]
            refine ih st1 st' h
              (by rw [hst1.1]; simp only [List.length_cons] at hlen; omega)
              ?_ (Or.inl hst1.2.1)
            intro ev hev
            rw [hst1.2.2] at hev
            rcases List.mem_append.mp hev with hmem | hmem
            · exact htr ev hmem
            · have : ev = ⟨st.processed + 1, p.record_objs.length⟩ := by simpa using hmem
              subst this
              exact ⟨List.length_pos.mpr hc.1, hc.2⟩
          · have hst1 : st1 = p := by
              rw [hp4]
              simp only [flush_if_due]
              rw [if_neg hc]
            subst hst1
            refine ih st1 st' h
              (by rw [hp1]; simp only [List.length_cons] at hlen; omega)
              (hp2 ▸ htr) ?_
            rw [hp1]
            by_cases hn : st.processed + 1 = n
            · left
              by_contra hne
              exact hc ⟨hne, Or.inr hn⟩
            · right
              exact hn

/-- C3 counterexample: the flush trigger counts processed *symbols*, not
pending *records* — with symbol "A" alone yielding 1001 bar records
(crossing the 1000-record threshold the claim describes) no flush
happens after "A" is processed (the pending batch holds 1001 records and
the trace is still empty); the whole two-symbol cycle performs exactly
one flush, at the last symbol, of all 1002 records at once. -/
theorem C3_cx_flush_counts_symbols_not_records :
    (load_loop ['1', 'h'] 7200000 "ALPACA"
        (fun s start => if s == "A"
          then (List.range' 0 1001).map (fun i => sampleBar s (start + i))
          else [sampleBar s start]) 2
        { target := ⟨[], [], 0⟩, record_objs := [], new_latest := []
          processed := 0, persisted := 0, trace := [] }
        [("A", 0)]).map (fun st => (st.record_objs.length, st.trace)) =
      Except.ok (1001, []) ∧
    (load_from_keys ['1', 'h'] 7200000 "ALPACA"
        (fun s start => if s == "A"
          then (List.range' 0 1001).map (fun i => sampleBar s (start + i))
          else [sampleBar s start]) ⟨[], [], 0⟩
        [("A", 0), ("B", 0)]).map (fun st => st.trace) =
      Except.ok [⟨2, 1002⟩] :=
  ⟨rfl, rfl⟩

/-- C3 (amended): within one cycle a flush fires exactly at the
iterations where the pending batch is nonempty and the number of
processed symbols is a multiple of 1000 (`BATCH_SIZE`) or the last
symbol of the cycle has been processed; consequently every recorded
flush is nonempty and lands on such a boundary, and at the end of the
cycle the pending batch is empty — the final partial batch is flushed,
never dropped. -/
theorem C3_flush_schedule (interval : Interval) (now : Int) (src : String)
    (fetch : String → Int → List Bar) (t : Target) (keys : List (String × Int))
    (st' : LoadState)
    (h : load_from_keys interval now src fetch t keys = Except.ok st') :
    (∀ ev ∈ st'.trace,
      0 < ev.nRecords ∧ (ev.processed % BATCH_SIZE = 0 ∨ ev.processed = keys.length)) ∧
    st'.record_objs = [] := by
  refine load_loop_flush_shape interval now src fetch keys.length keys _ st' h (by simp) ?_ ?_
  · intro ev hev
    simp at hev
  · left
    rfl

/-- C3 witness: a one-key cycle with a single fetched bar flushes once,
at the last symbol, and ends with an empty pending batch. -/
theorem C3_witness :
    (load_from_keys ['1', 'h'] 7200000 "ALPACA" (fun s start => [sampleBar s start])
        ⟨[], [], 0⟩ [("A", 5)] =
      Except.ok
        { target := ⟨[BarRecord.build_record 0 (sampleBar "A" 5)],
                     [⟨"A", 0, 5, false, "ALPACA"⟩], 1⟩
          record_objs := [], new_latest := [], processed := 1, persisted := 1
          trace := [⟨1, 1⟩] }) ∧
    ({ target := ⟨[BarRecord.build_record 0 (sampleBar "A" 5)],
                  [⟨"A", 0, 5, false, "ALPACA"⟩], 1⟩
       record_objs := [], new_latest := [], processed := 1, persisted := 1
       trace := [⟨1, 1⟩] } : LoadState).record_objs = ([] : List BarRecord) :=
  ⟨rfl,
   (C3_flush_schedule ['1', 'h'] 7200000 "ALPACA" (fun s start => [sampleBar s start])
     ⟨[], [], 0⟩ [("A", 5)] _ rfl).2⟩

/-! ## C5 -/

/-- C5 counterexample: reconciliation runs *before* plan computation
inside the same `run_once` cycle, so a symbol reinstated by
`check_trading_status` is part of that very cycle's fetch plan and its
bars are fetched and persisted in the same cycle — not only at the next
cycle's plan phase as the claim states.  Concretely: symbol "A" is
checkpointed inactive, the source reports it tradable, and the same
`run_once` call ends with one active symbol and one persisted record. -/
theorem C5_cx_refetched_in_same_cycle :
    (check_trading_status (fun _ => some [("A", true)])
        ⟨[], [⟨"A", 7, 1000, false, "ALPACA"⟩], 10⟩).latest =
      [⟨"A", 7, 1000, true, "ALPACA"⟩] ∧
    get_keys ['1', 'h'] [⟨"A", 7, 1000, true, "ALPACA"⟩] ["A"] =
      Except.ok [("A", 3601000)] ∧
    (run_once ['1', 'h'] 7200000 "ALPACA" (fun _ => some [("A", true)])
        (fun s start => [sampleBar s start])
        ⟨[], [⟨"A", 7, 1000, false, "ALPACA"⟩], 10⟩ ["A"]).map
      (fun r => (r.nActive, r.persisted)) = Except.ok (1, 1) :=
  ⟨rfl, rfl, rfl⟩

/-- C5 (amended): a symbol checkpointed `active = false` that the
source reports tradable again has its checkpoint's `active` flag set to
`true` by the reconciliation pass (a separate, immediately committed
update), and — because reconciliation precedes plan computation inside
`run_once` — the symbol already enters the *same* cycle's fetch plan,
with the fetch window starting at the next interval boundary after its
stored `latest_close`. -/
theorem C5_reactivation_enters_same_plan
    (interval : Interval) (secs : Int)
    (hparse : parse_interval_to_timedelta interval = Except.ok secs)
    (tr : List String → Option (List (String × Bool)))
    (t : Target) (s : String) (row : Latest)
    (hrow : lookupBy latestKey s t.latest = some row)
    (hact : row.active = false)
    (htr : tr ((t.latest.filter (fun r => !r.active)).map (fun r => r.symbol)) =
      some [(s, true)])
    (symbol_lst : List String) :
    lookupBy latestKey s (check_trading_status tr t).latest =
      some { row with active := true } ∧
    (∃ K, get_keys interval (check_trading_status tr t).latest symbol_lst = Except.ok K) ∧
    (∀ K, get_keys interval (check_trading_status tr t).latest symbol_lst = Except.ok K →
      (s, row.latest_close + 1000 * secs) ∈ K) := by
  have hsym : row.symbol = s := (lookup_find_symbol latestKey s t.latest row hrow).1
  have hmem : row ∈ t.latest := (lookup_find_symbol latestKey s t.latest row hrow).2
  subst hsym
  have ht1 : (check_trading_status tr t).latest =
      correct_trading_status t.latest [(row.symbol, true)] := by
    simp [check_trading_status, htr]
  have hf : ∀ x : Latest,
      latestKey ((fun row' =>
        match ([(row.symbol, true)] : List (String × Bool)).find?
            (fun p => p.1 == row'.symbol) with
        | some p => { row' with active := p.2 }
        | none => row') x) = latestKey x := by
    intro x
    cases h : ([(row.symbol, true)] : List (String × Bool)).find?
        (fun p => p.1 == x.symbol) <;> simp [latestKey, h]
  have hfrow : (fun row' =>
        match ([(row.symbol, true)] : List (String × Bool)).find?
            (fun p => p.1 == row'.symbol) with
        | some p => { row' with active := p.2 }
        | none => row') row = { row with active := true } := by
    simp [List.find?]
  have hlook : lookupBy latestKey row.symbol (check_trading_status tr t).latest =
      some { row with active := true } := by
    rw [ht1]
    unfold correct_trading_status
    rw [lookup_map_keyfix latestKey _ hf row.symbol t.latest, hrow]
    exact congrArg some hfrow
  refine ⟨hlook, ?_, ?_⟩
  · have htot : ∀ r ∈ (check_trading_status tr t).latest.filter (fun r => r.active),
        ∃ y, key_of_row interval r = Except.ok y := by
      intro r _
      exact ⟨(r.symbol, r.latest_close + 1000 * secs), by
        simp [key_of_row, get_next_interval, hparse]⟩
    obtain ⟨K0, hK0⟩ := mapM_ok_total htot
    cases hkk : get_keys interval (check_trading_status tr t).latest symbol_lst with
    | ok K => exact ⟨K, rfl⟩
    | error e =>
        exfalso
        simp only [get_keys] at hkk
        rw [hK0] at hkk
        cases hkk
  · intro K hK
    have hrow' : ({ row with active := true } : Latest) ∈
        (check_trading_status tr t).latest := by
      rw [ht1]
      unfold correct_trading_status
      exact List.mem_map.mpr ⟨row, hmem, hfrow⟩
    have hfilter : ({ row with active := true } : Latest) ∈
        (check_trading_status tr t).latest.filter (fun r => r.active) :=
      List.mem_filter.mpr ⟨hrow', rfl⟩
    have hkey : key_of_row interval { row with active := true } =
        Except.ok (row.symbol, row.latest_close + 1000 * secs) := by
      simp [key_of_row, get_next_interval, hparse]
    simp only [get_keys] at hK
    cases hmapM : ((check_trading_status tr t).latest.filter (fun r => r.active)).mapM
        (key_of_row interval) with
    | error e => rw [hmapM] at hK; cases hK
    | ok aks =>
        rw [hmapM] at hK
        cases hK
        exact List.mem_append_left _
          (mapM_ok_of_mem hmapM _ hfilter _ hkey)

/-- C5 witness: the amended theorem applied to the concrete inactive
symbol "A" checkpointed at 1000 ms, one-hour interval. -/
theorem C5_witness :
    lookupBy latestKey "A" (check_trading_status (fun _ => some [("A", true)])
        ⟨[], [⟨"A", 7, 1000, false, "ALPACA"⟩], 10⟩).latest =
      some ⟨"A", 7, 1000, true, "ALPACA"⟩ ∧
    ("A", (1000 : Int) + 1000 * 3600) ∈ [("A", (3601000 : Int))] :=
  have h := C5_reactivation_enters_same_plan ['1', 'h'] 3600 rfl
    (fun _ => some [("A", true)]) ⟨[], [⟨"A", 7, 1000, false, "ALPACA"⟩], 10⟩ "A"
    ⟨"A", 7, 1000, false, "ALPACA"⟩ rfl rfl rfl ["A"]
  ⟨h.1, h.2.2 [("A", 3601000)] rfl⟩

/-! ## C10 -/

/-- C10: at the end of a completed cycle the pacing mode is `"FAST"`
exactly when the number of records persisted during the cycle exceeds
the cycle's active-symbol count, and `"SLOW"` otherwise; and every
candidate `"FAST"`-mode sleep duration lies between 1 and 5 seconds. -/
theorem C10_pacing_mode (interval : Interval) (now : Int) (src : String)
    (tr : List String → Option (List (String × Bool)))
    (fetch : String → Int → List Bar) (t : Target) (symbol_lst : List String)
    (res : RunResult)
    (h : run_once interval now src tr fetch t symbol_lst = Except.ok res) :
    (res.mode = "FAST" ↔ res.nActive < res.persisted) ∧
    (res.mode = "FAST" ∨ res.mode = "SLOW") ∧
    (∀ x ∈ fast_sleep_choices, 1 ≤ x ∧ x ≤ 5) := by
  simp only [run_once] at h
  split at h
  · cases h
  · rename_i keys hkeys
    split at h
    · cases h
    · rename_i res0 hres0
      cases h
      refine ⟨?_, ?_, by decide⟩
      · show (if res0.persisted > keys.length then "FAST" else "SLOW") = "FAST" ↔
          keys.length < res0.persisted
        by_cases hc : res0.persisted > keys.length
        · simp [hc]
        · simp [hc]
      · show (if res0.persisted > keys.length then "FAST" else "SLOW") = "FAST" ∨
          (if res0.persisted > keys.length then "FAST" else "SLOW") = "SLOW"
        by_cases hc : res0.persisted > keys.length
        · left; simp [hc]
        · right; simp [hc]

/-- C10 witness: a cycle over one brand-new symbol persists one record
for one active symbol (not strictly more), so the chosen mode is
`"SLOW"`, matching the rule. -/
theorem C10_witness :
    run_once ['1', 'h'] 7200000 "ALPACA" (fun _ => none)
        (fun s start => [sampleBar s start]) ⟨[], [], 0⟩ ["A"] =
      Except.ok
        { mode := "SLOW"
          target := ⟨[BarRecord.build_record 0 (sampleBar "A" DATETIME_MIN_PLUS_DAY)],
                     [⟨"A", 0, DATETIME_MIN_PLUS_DAY, false, "ALPACA"⟩], 1⟩
          persisted := 1, nActive := 1, trace := [⟨1, 1⟩] } ∧
    (({ mode := "SLOW"
        target := ⟨[BarRecord.build_record 0 (sampleBar "A" DATETIME_MIN_PLUS_DAY)],
                   [⟨"A", 0, DATETIME_MIN_PLUS_DAY, false, "ALPACA"⟩], 1⟩
        persisted := 1, nActive := 1, trace := [⟨1, 1⟩] } : RunResult).mode = "FAST" ↔
      ({ mode := "SLOW"
         target := ⟨[BarRecord.build_record 0 (sampleBar "A" DATETIME_MIN_PLUS_DAY)],
                    [⟨"A", 0, DATETIME_MIN_PLUS_DAY, false, "ALPACA"⟩], 1⟩
         persisted := 1, nActive := 1, trace := [⟨1, 1⟩] } : RunResult).nActive <
      ({ mode := "SLOW"
         target := ⟨[BarRecord.build_record 0 (sampleBar "A" DATETIME_MIN_PLUS_DAY)],
                    [⟨"A", 0, DATETIME_MIN_PLUS_DAY, false, "ALPACA"⟩], 1⟩
         persisted := 1, nActive := 1, trace := [⟨1, 1⟩] } : RunResult).persisted) :=
  ⟨rfl,
   (C10_pacing_mode ['1', 'h'] 7200000 "ALPACA" (fun _ => none)
     (fun s start => [sampleBar s start]) ⟨[], [], 0⟩ ["A"] _ rfl).1⟩

/-! ## C2: checkpoint monotonicity -/

theorem key_of_row_ok (interval : Interval) (secs : Int)
    (hparse : parse_interval_to_timedelta interval = Except.ok secs) (row : Latest) :
    key_of_row interval row = Except.ok (row.symbol, row.latest_close + 1000 * secs) := by
  simp [key_of_row, get_next_interval, hparse]

theorem latest_closed_some_shape (interval : Interval) (now : Int) (src sym : String)
    (objs : List BarRecord) (l : Latest)
    (h : latest_closed interval now src sym objs = Except.ok (some l)) :
    l.symbol = sym ∧ ∃ r ∈ objs, l.latest_close = r.open_time := by
  unfold latest_closed at h
  split at h
  · cases hget : objs.get? (objs.length - 2) with
    | none => rw [hget] at h; cases h
    | some r =>
        rw [hget] at h
        have := Except.ok.inj h
        cases this
        exact ⟨rfl, r, List.get?_mem hget, rfl⟩
  · cases hget : objs.get? 0 with
    | none => rw [hget] at h; cases h
    | some r0 =>
        rw [hget] at h
        replace h : (match check_active interval now r0.open_time with
          | Except.error e => Except.error e
          | Except.ok active =>
            if (!active) = true then
              pure (some (Latest.build_record sym r0.id r0.open_time active src))
            else pure none) = Except.ok (some l) := h
        cases hca : check_active interval now r0.open_time with
        | error e => rw [hca] at h; cases h
        | ok active =>
            rw [hca] at h
            replace h : (if (!active) = true then
                pure (some (Latest.build_record sym r0.id r0.open_time active src))
              else pure none) = Except.ok (some l) := h
            by_cases hcA : active
            · rw [if_neg (by simp [hcA])] at h
              cases h
            · rw [if_pos (by simp [hcA])] at h
              have := Except.ok.inj h
              cases this
              exact ⟨rfl, r0, List.get?_mem hget, rfl⟩

theorem built_records_open_time (bars : List Bar) (ids : List Nat) (r : BarRecord)
    (h : r ∈ (bars.zip ids).map (fun p => BarRecord.build_record p.2 p.1)) :
    ∃ b ∈ bars, r.open_time = b.timestamp := by
  obtain ⟨p, hp, hpr⟩ := List.mem_map.mp h
  exact ⟨p.1, (List.of_mem_zip hp).1, by rw [← hpr]; rfl⟩

theorem get_keys_bound (interval : Interval) (secs : Int)
    (hparse : parse_interval_to_timedelta interval = Except.ok secs) (hsecs : 0 ≤ secs)
    (store : List Latest) (syms : List String) (K : List (String × Int))
    (hnodup : (store.map latestKey).Nodup)
    (hK : get_keys interval store syms = Except.ok K) :
    ∀ s ts, (s, ts) ∈ K → ∀ ro, lookupBy latestKey s store = some ro →
      ro.latest_close ≤ ts := by
  intro s ts hmem ro hro
  simp only [get_keys] at hK
  cases hmapM : (store.filter (fun r => r.active)).mapM (key_of_row interval) with
  | error e => rw [hmapM] at hK; cases hK
  | ok aks =>
      rw [hmapM] at hK
      cases hK
      rcases List.mem_append.mp hmem with hin | hin
      · obtain ⟨rowx, hrowx, hkey⟩ := mapM_ok_mem hmapM _ hin
        rw [key_of_row_ok interval secs hparse rowx] at hkey
        have hpair := Except.ok.inj hkey
        have hs : rowx.symbol = s := congrArg Prod.fst hpair
        have hts : rowx.latest_close + 1000 * secs = ts := congrArg Prod.snd hpair
        have hrx_store : rowx ∈ store := List.mem_of_mem_filter hrowx
        have hlook : lookupBy latestKey s store = some rowx := by
          rw [← hs]
          exact lookup_of_mem_nodup latestKey store rowx hnodup hrx_store
        have : ro = rowx := by
          rw [hro] at hlook
          exact Option.some.inj hlook
        subst this
        have hmul : 0 ≤ 1000 * secs := by positivity
        omega
      · obtain ⟨s', hs', heq⟩ := List.mem_map.mp hin
        have hs1 : s' = s := congrArg Prod.fst heq
        subst hs1
        exfalso
        have hmemro := lookup_find_symbol latestKey s' store ro hro
        by_cases hemp : store.isEmpty
        · rw [List.isEmpty_iff] at hemp
          rw [hemp] at hmemro
          simp at hmemro
        · rw [if_neg hemp] at hs'
          have hfilt := (List.mem_filter.mp hs').2
          have : store.any (fun r => r.symbol == s') = true :=
            List.any_eq_true.mpr ⟨ro, hmemro.2, by
              have hsy : ro.symbol = s' := hmemro.1
              simp [hsy]⟩
          simp [this] at hfilt

/-- A produced checkpoint never moves `latest_close` backwards relative
to the checkpoint table read at the start of the cycle. -/
def LatestBound (base : List Latest) (l : Latest) : Prop :=
  ∀ ro, lookupBy latestKey l.symbol base = some ro → ro.latest_close ≤ l.latest_close

/-- The monotonicity invariant carried through `load_from_keys`: every
stored checkpoint is at least as new as the one read at cycle start,
every pending checkpoint respects `LatestBound`, and the checkpoint
table's symbols stay unique. -/
structure LoadInv (base : List Latest) (st : LoadState) : Prop where
  look : ∀ s ro, lookupBy latestKey s base = some ro →
    ∃ rn, lookupBy latestKey s st.target.latest = some rn ∧
      ro.latest_close ≤ rn.latest_close
  pend : ∀ l ∈ st.new_latest.filterMap id, LatestBound base l
  nodup : (st.target.latest.map latestKey).Nodup

theorem applyUpserts_look (base cur rows : List Latest)
    (hlook : ∀ s ro, lookupBy latestKey s base = some ro →
      ∃ rn, lookupBy latestKey s cur = some rn ∧ ro.latest_close ≤ rn.latest_close)
    (hrows : ∀ l ∈ rows, LatestBound base l) :
    ∀ s ro, lookupBy latestKey s base = some ro →
      ∃ rn, lookupBy latestKey s (applyUpserts latestKey cur rows) = some rn ∧
        ro.latest_close ≤ rn.latest_close := by
  intro s ro hro
  rw [lookup_applyUpserts]
  cases hfind : rows.reverse.find? (fun r => decide (latestKey r = s)) with
  | some lw =>
      have hmem : lw ∈ rows := List.mem_reverse.mp (List.mem_of_find?_eq_some hfind)
      have hkey : lw.symbol = s := by
        have := List.find?_some hfind
        simpa using this
      refine ⟨lw, rfl, ?_⟩
      apply hrows lw hmem ro
      rw [show lookupBy latestKey lw.symbol base = lookupBy latestKey s base from by rw [hkey]]
      exact hro
  | none =>
      obtain ⟨rn, hrn, hle⟩ := hlook s ro hro
      exact ⟨rn, by simp only [Option.none_or]; exact hrn, hle⟩

theorem flush_preserves_inv (base : List Latest) (n processed : Nat) (p : LoadState)
    (hinv : LoadInv base p) : LoadInv base (flush_if_due n processed p) := by
  unfold flush_if_due
  split
  · refine ⟨?_, ?_, ?_⟩
    · intro s ro hro
      exact applyUpserts_look base p.target.latest (p.new_latest.filterMap id)
        hinv.look hinv.pend s ro hro
    · intro l hl
      simp at hl
    · exact nodup_applyUpserts latestKey _ _ hinv.nodup
  · exact hinv

theorem load_step_preserves_inv (interval : Interval) (now : Int) (src : String)
    (fetch : String → Int → List Bar) (n : Nat) (base : List Latest)
    (key : String × Int) (st st1 : LoadState)
    (hstep : load_step interval now src fetch n st key = Except.ok st1)
    (hinv : LoadInv base st)
    (hkey : ∀ ro, lookupBy latestKey key.1 base = some ro → ro.latest_close ≤ key.2)
    (hfetch : ∀ b ∈ fetch key.1 key.2, key.2 ≤ b.timestamp) :
    LoadInv base st1 := by
  simp only [load_step] at hstep
  split at hstep
  · cases hstep
    exact flush_preserves_inv base n (st.processed + 1) _
      ⟨hinv.look, hinv.pend, hinv.nodup⟩
  · split at hstep
    · cases hstep
    · rename_i nl hlc
      cases hstep
      apply flush_preserves_inv
      refine ⟨hinv.look, ?_, hinv.nodup⟩
      intro l hl
      rw [List.filterMap_append] at hl
      rcases List.mem_append.mp hl with hold | hnew
      · exact hinv.pend l hold
      · have hnl : nl = some l := by
          cases nl with
          | none => simp at hnew
          | some l' =>
              have : l' = l := by
                have h' : l = l' := by simpa using hnew
                exact h'.symm
              rw [this]
        subst hnl
        obtain ⟨hsym, r, hrmem, hlceq⟩ :=
          latest_closed_some_shape interval now src key.1 _ l hlc
        obtain ⟨b, hbmem, hropen⟩ := built_records_open_time _ _ r hrmem
        intro ro hro
        have h1 : ro.latest_close ≤ key.2 := by
          apply hkey ro
          rw [show lookupBy latestKey key.1 base = lookupBy latestKey l.symbol base from by
            rw [hsym]]
          exact hro
        have h2 : key.2 ≤ b.timestamp := hfetch b hbmem
        rw [hlceq, hropen]
        omega

theorem load_loop_preserves_inv (interval : Interval) (now : Int) (src : String)
    (fetch : String → Int → List Bar) (n : Nat) (base : List Latest) :
    ∀ (rest : List (String × Int)) (st st' : LoadState),
      load_loop interval now src fetch n st rest = Except.ok st' →
      (∀ k ∈ rest,
        (∀ ro, lookupBy latestKey k.1 base = some ro → ro.latest_close ≤ k.2) ∧
        (∀ b ∈ fetch k.1 k.2, k.2 ≤ b.timestamp)) →
      LoadInv base st → LoadInv base st' := by
  intro rest
  induction rest with
  | nil =>
      intro st st' h _ hinv
      cases h
      exact hinv
  | cons k rest ih =>
      intro st st' h hks hinv
      simp only [load_loop] at h
      cases hstep : load_step interval now src fetch n st k with
      | error e => rw [hstep] at h; cases h
      | ok st1 =>
          rw [hstep] at h
          exact ih st1 st' h (fun x hx => hks x (List.mem_cons_of_mem _ hx))
            (load_step_preserves_inv interval now src fetch n base k st st1 hstep hinv
              (hks k (List.mem_cons_self _ _)).1 (hks k (List.mem_cons_self _ _)).2)

theorem cts_update_keyfix (data : List (String × Bool)) :
    ∀ x : Latest, latestKey ((fun row' =>
      match data.find? (fun p => p.1 == row'.symbol) with
      | some p => { row' with active := p.2 }
      | none => row') x) = latestKey x := by
  intro x
  cases h : data.find? (fun p => p.1 == x.symbol) <;> simp [latestKey, h]

theorem cts_cases (tr : List String → Option (List (String × Bool))) (t : Target) :
    check_trading_status tr t = t ∨
    ∃ data : List (String × Bool),
      check_trading_status tr t =
        { t with latest := correct_trading_status t.latest data } := by
  cases htr : tr ((t.latest.filter (fun r => !r.active)).map (fun r => r.symbol)) with
  | none =>
      left
      simp [check_trading_status, htr]
  | some ts =>
      by_cases he : (ts.filter (fun p => p.2)).isEmpty
      · left
        simp [check_trading_status, htr, he]
      · right
        exact ⟨ts.filter (fun p => p.2), by simp [check_trading_status, htr, he]⟩

theorem cts_latest_map_key (tr : List String → Option (List (String × Bool)))
    (t : Target) :
    (check_trading_status tr t).latest.map latestKey = t.latest.map latestKey := by
  rcases cts_cases tr t with h | ⟨data, h⟩
  · rw [h]
  · rw [h]
    show (correct_trading_status t.latest data).map latestKey = _
    unfold correct_trading_status
    rw [List.map_map]
    exact List.map_congr_left (fun x _ => cts_update_keyfix data x)

theorem cts_lookup_latest_close (tr : List String → Option (List (String × Bool)))
    (t : Target) (s : String) (ro : Latest)
    (h : lookupBy latestKey s t.latest = some ro) :
    ∃ ro', lookupBy latestKey s (check_trading_status tr t).latest = some ro' ∧
      ro'.latest_close = ro.latest_close := by
  rcases cts_cases tr t with hc | ⟨data, hc⟩
  · exact ⟨ro, by rw [hc]; exact h, rfl⟩
  · rw [hc]
    show ∃ ro', lookupBy latestKey s (correct_trading_status t.latest data) = some ro' ∧ _
    unfold correct_trading_status
    rw [lookup_map_keyfix latestKey _ (cts_update_keyfix data) s, h]
    refine ⟨_, rfl, ?_⟩
    cases hf : data.find? (fun p => p.1 == ro.symbol) <;> simp [hf]

theorem run_once_latest_mono (interval : Interval) (secs : Int)
    (hparse : parse_interval_to_timedelta interval = Except.ok secs) (hsecs : 0 ≤ secs)
    (now : Int) (src : String) (tr : List String → Option (List (String × Bool)))
    (fetch : String → Int → List Bar) (t : Target) (symbol_lst : List String)
    (res : RunResult)
    (hfetch : ∀ s ts, ∀ b ∈ fetch s ts, ts ≤ b.timestamp)
    (hnodup : (t.latest.map latestKey).Nodup)
    (hrun : run_once interval now src tr fetch t symbol_lst = Except.ok res) :
    ((res.target.latest.map latestKey).Nodup) ∧
    ∀ s ro, lookupBy latestKey s t.latest = some ro →
      ∃ rn, lookupBy latestKey s res.target.latest = some rn ∧
        ro.latest_close ≤ rn.latest_close := by
  simp only [run_once] at hrun
  split at hrun
  · cases hrun
  · rename_i keys hkeys
    split at hrun
    · cases hrun
    · rename_i res0 hres0
      cases hrun
      have hbase_nodup : ((check_trading_status tr t).latest.map latestKey).Nodup := by
        rw [cts_latest_map_key]
        exact hnodup
      have hkb := get_keys_bound interval secs hparse hsecs
        (check_trading_status tr t).latest symbol_lst keys hbase_nodup hkeys
      have hres0' : load_loop interval now src fetch keys.length
          { target := check_trading_status tr t, record_objs := [], new_latest := []
            processed := 0, persisted := 0, trace := [] } keys = Except.ok res0 := hres0
      have hinv0 : LoadInv (check_trading_status tr t).latest
          { target := check_trading_status tr t, record_objs := [], new_latest := []
            processed := 0, persisted := 0, trace := [] } := by
        refine ⟨?_, ?_, hbase_nodup⟩
        · intro s ro hro
          exact ⟨ro, hro, le_refl _⟩
        · intro l hl
          simp at hl
      have hinv := load_loop_preserves_inv interval now src fetch keys.length
        (check_trading_status tr t).latest keys _ res0 hres0'
        (fun k hk =>
          ⟨fun ro hro => hkb k.1 k.2 (by rw [Prod.mk.eta]; exact hk) ro hro,
           fun b hb => hfetch k.1 k.2 b hb⟩)
        hinv0
      refine ⟨hinv.nodup, ?_⟩
      intro s ro hro
      obtain ⟨ro', hro', heq⟩ := cts_lookup_latest_close tr t s ro hro
      obtain ⟨rn, hrn, hle⟩ := hinv.look s ro' hro'
      exact ⟨rn, hrn, by omega⟩

/-- C2: for every symbol, across any sequence of engine cycles (each
reconciling trading status, computing fetch keys from the stored
checkpoints and loading/flushing through the last-write-wins checkpoint
upsert), the persisted `latest_close` is monotonically non-decreasing —
under the provider contract that a fetch starting at `ts` only returns
bars stamped at or after `ts`, a valid non-negative interval, and a
checkpoint table keyed uniquely by symbol.  A stored checkpoint is never
replaced by one with an earlier timestamp. -/
theorem C2_latest_close_monotone (interval : Interval) (secs : Int)
    (hparse : parse_interval_to_timedelta interval = Except.ok secs) (hsecs : 0 ≤ secs)
    (src : String) (symbol_lst : List String) :
    ∀ (envs : List CycleEnv) (t t' : Target),
      (∀ e ∈ envs, ∀ s ts, ∀ b ∈ e.fetch s ts, ts ≤ b.timestamp) →
      (t.latest.map latestKey).Nodup →
      run_cycles interval src symbol_lst t envs = Except.ok t' →
      ∀ s ro, lookupBy latestKey s t.latest = some ro →
        ∃ rn, lookupBy latestKey s t'.latest = some rn ∧
          ro.latest_close ≤ rn.latest_close := by
  intro envs
  induction envs with
  | nil =>
      intro t t' _ _ h s ro hro
      cases h
      exact ⟨ro, hro, le_refl _⟩
  | cons e es ih =>
      intro t t' hfetch hnodup h s ro hro
      simp only [run_cycles] at h
      cases hr : run_once interval e.now src e.trading e.fetch t symbol_lst with
      | error err => rw [hr] at h; cases h
      | ok r =>
          rw [hr] at h
          obtain ⟨hnodup1, hmono1⟩ := run_once_latest_mono interval secs hparse hsecs
            e.now src e.trading e.fetch t symbol_lst r
            (hfetch e (List.mem_cons_self _ _)) hnodup hr
          obtain ⟨r1, hr1, hle1⟩ := hmono1 s ro hro
          obtain ⟨rn, hrn, hle2⟩ := ih r.target t'
            (fun e' he' => hfetch e' (List.mem_cons_of_mem _ he')) hnodup1 h s r1 hr1
          exact ⟨rn, hrn, le_trans hle1 hle2⟩

/-- C2 witness: one cycle over symbol "A" checkpointed at 1000 ms with
a one-hour interval advances the stored `latest_close` to 3601000 ms —
never backwards. -/
theorem C2_witness :
    run_cycles ['1', 'h'] "ALPACA" ["A"] ⟨[], [⟨"A", 7, 1000, true, "ALPACA"⟩], 5⟩
        [⟨10000000000, fun _ => none, fun s ts => [sampleBar s ts]⟩] =
      Except.ok ⟨[BarRecord.build_record 5 (sampleBar "A" 3601000)],
                 [⟨"A", 5, 3601000, false, "ALPACA"⟩], 6⟩ ∧
    (1000 : Int) ≤ 3601000 := by
  refine ⟨rfl, ?_⟩
  obtain ⟨rn, hrn, hle⟩ := C2_latest_close_monotone ['1', 'h'] 3600 rfl (by decide)
    "ALPACA" ["A"]
    [⟨10000000000, fun _ => none, fun s ts => [sampleBar s ts]⟩]
    ⟨[], [⟨"A", 7, 1000, true, "ALPACA"⟩], 5⟩
    ⟨[BarRecord.build_record 5 (sampleBar "A" 3601000)],
     [⟨"A", 5, 3601000, false, "ALPACA"⟩], 6⟩
    (by
      intro e he s ts b hb
      simp only [List.mem_singleton] at he
      subst he
      simp only [List.mem_singleton] at hb
      subst hb
      exact le_refl _)
    (by decide) rfl "A" ⟨"A", 7, 1000, true, "ALPACA"⟩ rfl
  have heval : lookupBy latestKey "A"
      ((⟨[BarRecord.build_record 5 (sampleBar "A" 3601000)],
         [⟨"A", 5, 3601000, false, "ALPACA"⟩], 6⟩ : Target)).latest =
      some ⟨"A", 5, 3601000, false, "ALPACA"⟩ := rfl
  rw [heval] at hrn
  have hrneq : (⟨"A", 5, 3601000, false, "ALPACA"⟩ : Latest) = rn := Option.some.inj hrn
  rw [← hrneq] at hle
  exact hle

end AlpacaSpotLoader
